import Mathlib

/-!
# Verification of the NCRP complaint pipeline core

Shallow embedding of the two core components of the repository:

* `processors/strict_pdf_processor.py` — the label-driven field extractor
  (`_extract_after_label`, `_cleanup_amount`, `process_pdf_strict`);
* `processors/excel_builder.py` — the report builder
  (`_ensure_columns`, `_grouped_sheet`, `_duplicates_sheet`,
  `build_master_workbook`).

Python strings are embedded as `String`/`List Char`.  The two regular
expression shapes used by the extractor
(`rf"{lbl}\s*:\s*(.+)"` and `rf"{lbl}\s*\n\s*(.+)"`, compiled with
`re.IGNORECASE`) are given a direct operational semantics: a tiny regex
AST (`RE`) covering exactly the constructs the label fragments use
(case-insensitive literals, `\s*`, an optional character `c?`, a literal
line break, and a final greedy capture group `(.+)`), a backtracking
matcher with Python's greedy preference order, and a leftmost search
(`reSearch`) mirroring `re.search`.

`\s` and `str.strip` are modelled on the six ASCII whitespace characters
(space, `\t`, `\n`, `\r`, `\x0b`, `\x0c`); Python additionally accepts
rare Unicode whitespace, immaterial to the claims proved here.
-/

/-! ## Characters and whitespace -/

/-- ASCII whitespace, as matched by Python's `\s` and stripped by `str.strip()`. -/
def isWS (c : Char) : Bool :=
  c = ' ' || c = '\t' || c = '\n' || c = '\r' || c = '\x0b' || c = '\x0c'

/-- Case-insensitive character comparison (`re.IGNORECASE`; all label letters
are ASCII, where Python's case folding agrees with `Char.toLower`). -/
def ciEq (a b : Char) : Bool := a.toLower = b.toLower

/-- `str.strip()`: drop whitespace from both ends. -/
def pstrip (s : List Char) : List Char :=
  ((s.dropWhile isWS).reverse.dropWhile isWS).reverse

/-- Python's code-point lexicographic `<` on strings (used by the report
builder's sort; numpy/pandas compare Python strings this way). -/
def charListLt : List Char → List Char → Bool
  | [], [] => false
  | [], _ :: _ => true
  | _ :: _, [] => false
  | a :: as, b :: bs => if a < b then true else if b < a then false else charListLt as bs

/-! ## The regex fragment used by the extractor -/

/-- Regex atoms appearing in the label patterns of
`strict_pdf_processor.py` and in the two search shapes built from them. -/
inductive RE where
  /-- a literal character, matched case-insensitively -/
  | lit (c : Char)
  /-- `c?` — an optional character (greedy) -/
  | opt (c : Char)
  /-- `\s*` — greedy whitespace run -/
  | wsStar
  /-- a literal line break `\n` -/
  | nl
  /-- `(.+)` — the final greedy capture: one or more non-newline characters -/
  | dotPlus
deriving DecidableEq, Repr

/-- Try the continuation `k` on `s.drop i` for `i = n, n-1, …, 0`, first
success wins: the greedy (longest-first) backtracking order of `\s*`. -/
def wsTryAux (k : List Char → Option (List Char)) (s : List Char) : Nat → Option (List Char)
  | 0 => k s
  | n + 1 => (k (s.drop (n + 1))).orElse fun _ => wsTryAux k s n

/-- Match a pattern against a prefix of `s` (Python match-at-position
semantics with greedy backtracking); returns the `(.+)` capture on success. -/
def matchRE : List RE → List Char → Option (List Char)
  | [], _ => none
  | RE.lit _ :: _, [] => none
  | RE.lit c :: ps, x :: s => if ciEq c x then matchRE ps s else none
  | RE.opt _ :: ps, [] => matchRE ps []
  | RE.opt c :: ps, x :: s =>
    if ciEq c x then (matchRE ps s).orElse fun _ => matchRE ps (x :: s)
    else matchRE ps (x :: s)
  | RE.nl :: _, [] => none
  | RE.nl :: ps, x :: s => if x = '\n' then matchRE ps s else none
  | RE.dotPlus :: _, s =>
    let cap := s.takeWhile fun c => c ≠ '\n'
    if cap.isEmpty then none else some cap
  | RE.wsStar :: ps, s => wsTryAux (matchRE ps) s (s.takeWhile isWS).length

/-- `re.search`: try the pattern at every position, leftmost match wins. -/
def reSearch (ps : List RE) : List Char → Option (List Char)
  | [] => matchRE ps []
  | x :: t => (matchRE ps (x :: t)).orElse fun _ => reSearch ps t

/-- Literal word fragment of a label pattern. -/
def lits (s : String) : List RE := s.toList.map RE.lit

/-- `rf"{lbl}\s*:\s*(.+)"` — the inline shape. -/
def pInline (lbl : List RE) : List RE :=
  lbl ++ [RE.wsStar, RE.lit ':', RE.wsStar, RE.dotPlus]

/-- `rf"{lbl}\s*\n\s*(.+)"` — the next-line shape. -/
def pNextline (lbl : List RE) : List RE :=
  lbl ++ [RE.wsStar, RE.nl, RE.wsStar, RE.dotPlus]

/-- One label pattern: inline shape first, next-line shape as fallback
(`m = re.search(inline); if not m: m = re.search(nextline)`). -/
def searchLabel (text : List Char) (lbl : List RE) : Option (List Char) :=
  (reSearch (pInline lbl) text).orElse fun _ => reSearch (pNextline lbl) text

/-- Post-processing of a capture in `_extract_after_label`:
`value = m.group(1).strip(); if "\n" in value: value = value.split("\n")[0].strip()`. -/
def postValue (cap : List Char) : List Char :=
  let value := pstrip cap
  if value.contains '\n' then pstrip (value.takeWhile fun c => c ≠ '\n') else value

/-- `_extract_after_label`: try each label pattern in list order, first
pattern yielding a match (inline or next-line) returns its processed
capture; empty string if none matches. -/
def extract_after_label (text : List Char) : List (List RE) → List Char
  | [] => []
  | lbl :: rest =>
    match searchLabel text lbl with
    | some cap => postValue cap
    | none => extract_after_label text rest

/-! ## Canonical schema -/

/-- The eleven canonical fields (`REQUIRED_COLUMNS` in `excel_builder.py`,
and the keys of the dictionary returned by `process_pdf_strict`). -/
inductive FieldKey where
  | Complaint_ID
  | Complaint_Date_Time
  | Complainant_Name
  | Mobile_Number
  | Email
  | District
  | Police_Station
  | Type_of_Cybercrime
  | Platform_Involved
  | Amount_Lost
  | Current_Status
deriving DecidableEq, Repr

/-- `REQUIRED_COLUMNS` — the canonical column order. -/
def REQUIRED_COLUMNS : List FieldKey :=
  [FieldKey.Complaint_ID, FieldKey.Complaint_Date_Time, FieldKey.Complainant_Name,
   FieldKey.Mobile_Number, FieldKey.Email, FieldKey.District, FieldKey.Police_Station,
   FieldKey.Type_of_Cybercrime, FieldKey.Platform_Involved, FieldKey.Amount_Lost,
   FieldKey.Current_Status]

/-- The canonical column names, as spelled in the source. -/
def fieldName : FieldKey → String
  | FieldKey.Complaint_ID => "Complaint_ID"
  | FieldKey.Complaint_Date_Time => "Complaint_Date_Time"
  | FieldKey.Complainant_Name => "Complainant_Name"
  | FieldKey.Mobile_Number => "Mobile_Number"
  | FieldKey.Email => "Email"
  | FieldKey.District => "District"
  | FieldKey.Police_Station => "Police_Station"
  | FieldKey.Type_of_Cybercrime => "Type_of_Cybercrime"
  | FieldKey.Platform_Involved => "Platform_Involved"
  | FieldKey.Amount_Lost => "Amount_Lost"
  | FieldKey.Current_Status => "Current_Status"

/-- A canonical record: the eleven-key dictionary produced by the extractor
and consumed by the report builder. -/
structure Complaint where
  Complaint_ID : String
  Complaint_Date_Time : String
  Complainant_Name : String
  Mobile_Number : String
  Email : String
  District : String
  Police_Station : String
  Type_of_Cybercrime : String
  Platform_Involved : String
  Amount_Lost : String
  Current_Status : String
deriving DecidableEq, Repr

/-- Value of a canonical record at a field. -/
def fieldValue (f : FieldKey) (c : Complaint) : String :=
  match f with
  | FieldKey.Complaint_ID => c.Complaint_ID
  | FieldKey.Complaint_Date_Time => c.Complaint_Date_Time
  | FieldKey.Complainant_Name => c.Complainant_Name
  | FieldKey.Mobile_Number => c.Mobile_Number
  | FieldKey.Email => c.Email
  | FieldKey.District => c.District
  | FieldKey.Police_Station => c.Police_Station
  | FieldKey.Type_of_Cybercrime => c.Type_of_Cybercrime
  | FieldKey.Platform_Involved => c.Platform_Involved
  | FieldKey.Amount_Lost => c.Amount_Lost
  | FieldKey.Current_Status => c.Current_Status

/-! ## The field extractor (`strict_pdf_processor.py`) -/

/-- `_cleanup_amount`: keep only digits, `.` and `,`
(`re.sub(r"[^0-9.,]", "", raw)`), then drop the commas
(`cleaned.replace(",", "")`); empty input short-circuits to empty. -/
def cleanup_amount (raw : List Char) : List Char :=
  if raw.isEmpty then []
  else ((raw.filter fun c => c.isDigit || c = '.' || c = ',').filter fun c => c ≠ ',')

/-- Label pattern set for `Complaint_ID`:
`Acknowledgement\s*Number`, `Complaint\s*ID`, `Ack\s*No`. -/
def complaint_id_labels : List (List RE) :=
  [lits "Acknowledgement" ++ [RE.wsStar] ++ lits "Number",
   lits "Complaint" ++ [RE.wsStar] ++ lits "ID",
   lits "Ack" ++ [RE.wsStar] ++ lits "No"]

/-- `Complaint\s*Date\s*\/?\s*Time`, `Complaint\s*Date`, `Registration\s*Date`. -/
def complaint_date_time_labels : List (List RE) :=
  [lits "Complaint" ++ [RE.wsStar] ++ lits "Date" ++
     [RE.wsStar, RE.opt '/', RE.wsStar] ++ lits "Time",
   lits "Complaint" ++ [RE.wsStar] ++ lits "Date",
   lits "Registration" ++ [RE.wsStar] ++ lits "Date"]

/-- `Complainant\s*Name`, `Name\s*of\s*Complainant`. -/
def complainant_name_labels : List (List RE) :=
  [lits "Complainant" ++ [RE.wsStar] ++ lits "Name",
   lits "Name" ++ [RE.wsStar] ++ lits "of" ++ [RE.wsStar] ++ lits "Complainant"]

/-- `Mobile\s*Number`, `Mobile\s*No`, `Phone\s*Number`. -/
def mobile_number_labels : List (List RE) :=
  [lits "Mobile" ++ [RE.wsStar] ++ lits "Number",
   lits "Mobile" ++ [RE.wsStar] ++ lits "No",
   lits "Phone" ++ [RE.wsStar] ++ lits "Number"]

/-- `Email`, `E\-?mail`. -/
def email_labels : List (List RE) :=
  [lits "Email", lits "E" ++ [RE.opt '-'] ++ lits "mail"]

/-- `District`. -/
def district_labels : List (List RE) := [lits "District"]

/-- `Police\s*Station`, `PS\s*Name`. -/
def police_station_labels : List (List RE) :=
  [lits "Police" ++ [RE.wsStar] ++ lits "Station",
   lits "PS" ++ [RE.wsStar] ++ lits "Name"]

/-- `Type\s*of\s*Cyber\s*Crime`, `Category\s*of\s*complaint`. -/
def type_of_cybercrime_labels : List (List RE) :=
  [lits "Type" ++ [RE.wsStar] ++ lits "of" ++ [RE.wsStar] ++ lits "Cyber" ++
     [RE.wsStar] ++ lits "Crime",
   lits "Category" ++ [RE.wsStar] ++ lits "of" ++ [RE.wsStar] ++ lits "complaint"]

/-- `Platform\s*involved`, `Bank\/Platform`, `Platform`. -/
def platform_involved_labels : List (List RE) :=
  [lits "Platform" ++ [RE.wsStar] ++ lits "involved",
   lits "Bank" ++ [RE.lit '/'] ++ lits "Platform",
   lits "Platform"]

/-- `Amount\s*Lost`, `Total\s*Fraudulent\s*Amount`, `Loss\s*Amount`. -/
def amount_lost_labels : List (List RE) :=
  [lits "Amount" ++ [RE.wsStar] ++ lits "Lost",
   lits "Total" ++ [RE.wsStar] ++ lits "Fraudulent" ++ [RE.wsStar] ++ lits "Amount",
   lits "Loss" ++ [RE.wsStar] ++ lits "Amount"]

/-- `Status`, `Current\s*Status`. -/
def current_status_labels : List (List RE) :=
  [lits "Status", lits "Current" ++ [RE.wsStar] ++ lits "Status"]

/-- STEP 4 of `process_pdf_strict`: field extraction from the Combined Text. -/
def extractComplaint (text : List Char) : Complaint :=
  { Complaint_ID := ⟨extract_after_label text complaint_id_labels⟩
    Complaint_Date_Time := ⟨extract_after_label text complaint_date_time_labels⟩
    Complainant_Name := ⟨extract_after_label text complainant_name_labels⟩
    Mobile_Number := ⟨extract_after_label text mobile_number_labels⟩
    Email := ⟨extract_after_label text email_labels⟩
    District := ⟨extract_after_label text district_labels⟩
    Police_Station := ⟨extract_after_label text police_station_labels⟩
    Type_of_Cybercrime := ⟨extract_after_label text type_of_cybercrime_labels⟩
    Platform_Involved := ⟨extract_after_label text platform_involved_labels⟩
    Amount_Lost := ⟨cleanup_amount (extract_after_label text amount_lost_labels)⟩
    Current_Status := ⟨extract_after_label text current_status_labels⟩ }

/-- The all-empty record returned for a zero-page document. -/
def emptyComplaint : Complaint :=
  { Complaint_ID := "", Complaint_Date_Time := "", Complainant_Name := ""
    Mobile_Number := "", Email := "", District := "", Police_Station := ""
    Type_of_Cybercrime := "", Platform_Involved := "", Amount_Lost := ""
    Current_Status := "" }

/-- `"\n".join(page_texts)` — the Combined Text. -/
def combinedText (pages : List String) : String := String.intercalate "\n" pages

/-- `process_pdf_strict` (value level): zero pages yield the all-empty
record; otherwise the fields are extracted from the Combined Text. -/
def process_pdf_strict (pages : List String) : Complaint :=
  if pages.length = 0 then emptyComplaint
  else extractComplaint (combinedText pages).toList

/-- The dictionary literal that `process_pdf_strict` returns, as an
association list in its source key order. -/
def complaint_pairs (c : Complaint) : List (FieldKey × String) :=
  REQUIRED_COLUMNS.map fun f => (f, fieldValue f c)

/-- The `(current_page, total_pages)` arguments of the progress-callback
invocations performed by the page loop, in order: `(1, N) … (N, N)`. -/
def progress_calls (pages : List String) : List (Nat × Nat) :=
  (List.range pages.length).map fun i => (i + 1, pages.length)

/-- Observable events of one `process_pdf_strict` run. -/
inductive Ev where
  /-- `update_progress(current, total)` -/
  | progress (current total : Nat)
  /-- `combined_text = "\n".join(page_texts)` -/
  | combineText
  /-- one `_extract_after_label` search over the Combined Text -/
  | fieldSearch (f : FieldKey)
deriving DecidableEq, Repr

/-- Is the event a progress-callback invocation? -/
def Ev.isProgress : Ev → Bool
  | Ev.progress _ _ => true
  | _ => false

/-- Event trace of `process_pdf_strict`: a zero-page document returns
before the loop and the join; otherwise one callback per page inside the
loop, then the join, then the per-field searches. -/
def extraction_trace (pages : List String) : List Ev :=
  if pages.length = 0 then []
  else ((progress_calls pages).map fun p => Ev.progress p.1 p.2) ++
    Ev.combineText :: REQUIRED_COLUMNS.map Ev.fieldSearch

/-- The page loop with an exception-throwing callback: the page text is
collected, then the callback runs; the source wraps the call in no
`try`/`except`, so a callback exception propagates out of the loop. -/
def pageLoop {ε : Type} (cb : Nat → Nat → Except ε Unit) (total : Nat) :
    Nat → List String → Except ε (List String)
  | _, [] => Except.ok []
  | idx, p :: rest =>
    match cb idx total with
    | Except.error e => Except.error e
    | Except.ok _ =>
      match pageLoop cb total (idx + 1) rest with
      | Except.error e => Except.error e
      | Except.ok r => Except.ok (p :: r)

/-- `process_pdf_strict` with the callback's effect made explicit: the
loop body runs the callback per page and any exception it raises aborts
the whole extraction (the zero-page early return precedes the loop). -/
def process_pdf_strict_cb {ε : Type} (cb : Nat → Nat → Except ε Unit)
    (pages : List String) : Except ε Complaint :=
  if pages.length = 0 then Except.ok emptyComplaint
  else
    match pageLoop cb pages.length 1 pages with
    | Except.error e => Except.error e
    | Except.ok texts => Except.ok (extractComplaint (combinedText texts).toList)

/-! ## The report builder (`excel_builder.py`)

Sheets are embedded as lists of rows (each row a list of cell strings);
the header rows written by `ws.append(REQUIRED_COLUMNS)` /
`df.to_excel` are included.  `df.sort_values(by=[by, 'Complaint_ID'])`
with a multi-column key performs a *stable* ascending lexicographic sort
(pandas uses numpy's stable `lexsort` whenever `by` has more than one
column, and string cells compare by Python's code-point order).  A
stable sort by a fixed comparator is extensionally unique, so it is
embedded here as a stable insertion sort by the lexicographic
`(grouping value, Complaint_ID)` key. -/

/-- The sort key of `_grouped_sheet`'s `sort_values`:
`(row[by], row['Complaint_ID'])`. -/
def sortKey (by_ : FieldKey) (c : Complaint) : String × String :=
  (fieldValue by_ c, c.Complaint_ID)

/-- Strict lexicographic comparison of sort keys, by Python string order. -/
def keyLt (a b : String × String) : Bool :=
  charListLt a.1.data b.1.data ||
    (a.1 == b.1 && charListLt a.2.data b.2.data)

/-- Insert a record into an already sorted run, after every record whose
key is strictly smaller and before the first tie or larger key — the
placement a stable ascending sort gives an element coming after the run. -/
def insertSorted (by_ : FieldKey) (c : Complaint) : List Complaint → List Complaint
  | [] => [c]
  | d :: l =>
    if keyLt (sortKey by_ d) (sortKey by_ c) then d :: insertSorted by_ c l
    else c :: d :: l

/-- `df.sort_values(by=[by, 'Complaint_ID'])`: stable ascending sort of
all records (no filtering) by the lexicographic key. -/
def sort_values (by_ : FieldKey) : List Complaint → List Complaint
  | [] => []
  | c :: l => insertSorted by_ c (sort_values by_ l)

/-- One output row of a record, in canonical column order. -/
def rowOf (c : Complaint) : List String :=
  REQUIRED_COLUMNS.map fun f => fieldValue f c

/-- The header row `REQUIRED_COLUMNS`. -/
def headerRow : List String := REQUIRED_COLUMNS.map fieldName

/-- `_grouped_sheet`: header row, then every record (no filter), sorted by
`(grouping value, Complaint_ID)`. -/
def grouped_sheet (by_ : FieldKey) (rs : List Complaint) : List (List String) :=
  headerRow :: (sort_values by_ rs).map rowOf

/-- The rows of `df` whose value at `k` is a non-empty string
(`df[df[k].astype(str).str.len() > 0]`). -/
def nonEmptyAt (k : FieldKey) (rs : List Complaint) : List Complaint :=
  rs.filter fun r => fieldValue k r ≠ ""

/-- One pass of `_duplicates_sheet`: restrict to rows with a non-empty
value at `k`, keep the rows whose value occurs at least twice in that
restriction (`duplicated(keep=False)`), and append the reason column. -/
def dupPass (k : FieldKey) (reason : String) (rs : List Complaint) : List (List String) :=
  let fs := nonEmptyAt k rs
  (fs.filter fun r => 2 ≤ fs.countP fun r2 => fieldValue k r2 = fieldValue k r).map
    fun r => rowOf r ++ [reason]

/-- `_duplicates_sheet` data rows: the `Complaint_ID` pass concatenated
with the `Mobile_Number` pass (`pd.concat([dup_id, dup_mobile])`). -/
def possible_duplicates_rows (rs : List Complaint) : List (List String) :=
  dupPass FieldKey.Complaint_ID "Duplicate Complaint_ID" rs ++
    dupPass FieldKey.Mobile_Number "Duplicate Mobile_Number" rs

/-- `_duplicates_sheet` with its extended header row. -/
def duplicates_sheet (rs : List Complaint) : List (List String) :=
  (headerRow ++ ["Duplicate_Reason"]) :: possible_duplicates_rows rs

/-- The Master sheet: header, then one row per record in input order. -/
def master_sheet (rs : List Complaint) : List (List String) :=
  headerRow :: rs.map rowOf

/-- The four sheets of the generated workbook. -/
structure Workbook where
  master : List (List String)
  byCrimeType : List (List String)
  byPlatform : List (List String)
  duplicates : List (List String)
deriving DecidableEq, Repr

/-- The workbook contents `build_master_workbook` derives from a record
sequence. -/
def workbookOf (rs : List Complaint) : Workbook :=
  { master := master_sheet rs
    byCrimeType := grouped_sheet FieldKey.Type_of_Cybercrime rs
    byPlatform := grouped_sheet FieldKey.Platform_Involved rs
    duplicates := duplicates_sheet rs }

/-- System state at the builder boundary: the accumulated records
(`COMPLAINTS` in `app.py`) and the artifact at the output path. -/
structure SysState where
  accumulation : List Complaint
  artifact : Option Workbook
deriving DecidableEq

/-- `build_master_workbook` as a state transformer: reads the
accumulation, overwrites the artifact with the workbook derived from it. -/
def build_master_workbook (s : SysState) : SysState :=
  { accumulation := s.accumulation, artifact := some (workbookOf s.accumulation) }

/-! ## Heterogeneous input records (`_ensure_columns` and NaN cells)

`build_master_workbook` first runs `pd.DataFrame(complaints)`: the
frame's columns are the union of the dictionaries' keys, and a row
lacking one of those keys gets a `NaN` cell.  `_ensure_columns` adds a
column — filled with `''` for *every* row — only when the column is
absent from the whole frame (`if col not in df.columns`); `NaN` cells of
columns that do exist are left untouched.  A raw input record is
embedded as a partial map (`none` = key absent), a cell after coercion
as `Option String` (`none` = `NaN`).  `df.to_excel` renders `NaN` as
`''` (its default `na_rep`). -/

/-- An input dictionary that may lack canonical keys. -/
def RawRecord : Type := FieldKey → Option String

/-- Does the frame built from `rs` have column `f`
(`col in df.columns`: some record carries the key)? -/
def colPresent (rs : List RawRecord) (f : FieldKey) : Bool :=
  rs.any fun r => (r f).isSome

/-- The cell of record `r` at column `f` after `_ensure_columns`:
a column absent from the whole frame is synthesized as `''`; otherwise
the record's own cell (possibly `NaN`) is kept. -/
def ensure_columns_cell (rs : List RawRecord) (r : RawRecord) (f : FieldKey) :
    Option String :=
  if colPresent rs f then r f else some ""

/-- Master-sheet data rows for heterogeneous inputs, as rendered by
`df.to_excel` (default `na_rep` turns `NaN` cells into `''`). -/
def master_rendered (rs : List RawRecord) : List (List String) :=
  rs.map fun r => REQUIRED_COLUMNS.map fun f => (ensure_columns_cell rs r f).getD ""

/-- The Master-sheet row of one heterogeneous record, as rendered. -/
def master_row (rs : List RawRecord) (r : RawRecord) : List String :=
  REQUIRED_COLUMNS.map fun f => (ensure_columns_cell rs r f).getD ""

/-! ## Spec-side definitions

For the refinement claims, a second definition written from the spec's
words, to be compared with the one embedded from the source. -/

/-- Field extraction as the spec describes it: the first pattern in list
order yielding either an inline or (failing that) a next-line match
determines the value; later patterns are never tried. -/
def claimFieldExtract (labels : List (List RE)) (text : List Char) : List Char :=
  ((labels.findSome? fun lbl =>
      (reSearch (pInline lbl) text).orElse fun _ => reSearch (pNextline lbl) text).map
    postValue).getD []

/-- One duplicate pass as the spec describes it: every record whose value
at `k` is non-empty and occurs at least twice across the full record set,
annotated with the reason. -/
def claim_dup_pass (k : FieldKey) (reason : String) (rs : List Complaint) :
    List (List String) :=
  (rs.filter fun r =>
      fieldValue k r ≠ "" && 2 ≤ rs.countP fun r2 => fieldValue k r2 = fieldValue k r).map
    fun r => rowOf r ++ [reason]

/-- The duplicate sheet as the spec describes it: Pass A rows followed by
Pass B rows, no cross-pass deduplication. -/
def claim_duplicates_rows (rs : List Complaint) : List (List String) :=
  claim_dup_pass FieldKey.Complaint_ID "Duplicate Complaint_ID" rs ++
    claim_dup_pass FieldKey.Mobile_Number "Duplicate Mobile_Number" rs

/-- Amount normalization as the spec describes it: discard every character
except decimal digits, `.` and `,`, then remove every `,`. -/
def claim_cleanup_amount (raw : List Char) : List Char :=
  (raw.filter fun c => c.isDigit || c = '.' || c = ',').filter fun c => c ≠ ','

/-- The non-strict lexicographic order on sort keys the grouped sheets are
claimed to be sorted by. -/
def keyLe (a b : String × String) : Prop := keyLt a b = true ∨ a = b

/-! ## Concrete inputs used by the claims' examples -/

/-- A canonical record with the given `Complaint_ID` and `Mobile_Number`
and every other field empty. -/
def mkIdMob (cid mob : String) : Complaint :=
  { emptyComplaint with Complaint_ID := cid, Mobile_Number := mob }

/-- Complaint_IDs `[A, A, B]`, Mobile_Numbers `[1, 2, 2]`. -/
def dupExample : List Complaint :=
  [mkIdMob "A" "1", mkIdMob "A" "2", mkIdMob "B" "2"]

/-- A canonical record with the given crime type and `Complaint_ID`. -/
def mkCrime (crime cid : String) : Complaint :=
  { emptyComplaint with Type_of_Cybercrime := crime, Complaint_ID := cid }

/-- Crime types `[Phishing, Phishing, UPI_Fraud]` with Complaint_IDs `[2, 1, 3]`. -/
def groupExample : List Complaint :=
  [mkCrime "Phishing" "2", mkCrime "Phishing" "1", mkCrime "UPI_Fraud" "3"]

/-- A heterogeneous input record carrying every canonical key. -/
def rawFull : RawRecord := fun f => some (fieldName f)

/-- A heterogeneous input record lacking the `District` and `Email` keys. -/
def rawMissingDE : RawRecord := fun f =>
  match f with
  | FieldKey.District => none
  | FieldKey.Email => none
  | _ => some "x"

/-- A record sequence in which `District` and `Email` are present on one
record and missing on another. -/
def mixedRaws : List RawRecord := [rawFull, rawMissingDE]

/-- A progress callback that raises on its first invocation. -/
def raisingCb : Nat → Nat → Except Unit Unit := fun _ _ => Except.error ()

/-! ## Order theory for the sort comparator -/

theorem charListLt_irrefl : ∀ l : List Char, charListLt l l = false
  | [] => rfl
  | a :: as => by simp [charListLt, lt_irrefl a, charListLt_irrefl as]

theorem charListLt_connex :
    ∀ a b : List Char, charListLt a b = false → charListLt b a = false → a = b
  | [], [], _, _ => rfl
  | [], _ :: _, h, _ => by simp [charListLt] at h
  | _ :: _, [], _, h => by simp [charListLt] at h
  | x :: xs, y :: ys, h1, h2 => by
    simp only [charListLt] at h1 h2
    by_cases hxy : x < y
    · simp [hxy] at h1
    · by_cases hyx : y < x
      · simp [hyx] at h2
      · have hx : x = y := le_antisymm (le_of_not_lt hyx) (le_of_not_lt hxy)
        simp only [hxy, hyx, if_neg, if_false] at h1 h2
        have := charListLt_connex xs ys (by simpa [hxy, hyx] using h1)
          (by simpa [hxy, hyx] using h2)
        simp [hx, this]

theorem charListLt_trans :
    ∀ a b c : List Char, charListLt a b = true → charListLt b c = true →
      charListLt a c = true
  | [], [], _, h1, _ => by simp [charListLt] at h1
  | [], _ :: _, [], _, h2 => by simp [charListLt] at h2
  | [], _ :: _, _ :: _, _, _ => rfl
  | _ :: _, [], _, h1, _ => by simp [charListLt] at h1
  | _ :: _, _ :: _, [], _, h2 => by simp [charListLt] at h2
  | x :: xs, y :: ys, z :: zs, h1, h2 => by
    simp only [charListLt] at h1 h2 ⊢
    by_cases hxy : x < y
    · by_cases hyz : y < z
      · simp [lt_trans hxy hyz]
      · by_cases hzy : z < y
        · simp [hyz, hzy] at h2
        · have : y = z := le_antisymm (le_of_not_lt hzy) (le_of_not_lt hyz)
          simp [this ▸ hxy]
    · by_cases hyx : y < x
      · simp [hxy, hyx] at h1
      · have hx : x = y := le_antisymm (le_of_not_lt hyx) (le_of_not_lt hxy)
        by_cases hyz : y < z
        · simp [hx ▸ hyz]
        · by_cases hzy : z < y
          · simp [hyz, hzy] at h2
          · have hy : y = z := le_antisymm (le_of_not_lt hzy) (le_of_not_lt hyz)
            have := charListLt_trans xs ys zs
              (by simpa [hxy, hyx] using h1) (by simpa [hyz, hzy] using h2)
            simp [hx, hy, charListLt_irrefl, this]

theorem charListLt_asymm {a b : List Char} (h : charListLt a b = true) :
    charListLt b a = false := by
  by_contra hc
  have hba : charListLt b a = true := by
    cases hx : charListLt b a
    · exact absurd hx hc
    · rfl
  have := charListLt_trans a b a h hba
  simp [charListLt_irrefl] at this

theorem keyLt_irrefl (v : String × String) : keyLt v v = false := by
  simp [keyLt, charListLt_irrefl]

theorem keyLt_connex {a b : String × String}
    (h1 : keyLt a b = false) (h2 : keyLt b a = false) : a = b := by
  simp only [keyLt, Bool.or_eq_false_iff, Bool.and_eq_false_iff] at h1 h2
  obtain ⟨h11, h12⟩ := h1
  obtain ⟨h21, h22⟩ := h2
  have hfst : a.1 = b.1 := by
    apply String.ext
    exact charListLt_connex _ _ h11 h21
  have hsnd : a.2 = b.2 := by
    apply String.ext
    apply charListLt_connex _ _
    · rcases h12 with h | h
      · simp [hfst] at h
      · exact h
    · rcases h22 with h | h
      · simp [hfst] at h
      · exact h
  exact Prod.ext hfst hsnd

theorem keyLt_trans {a b c : String × String}
    (h1 : keyLt a b = true) (h2 : keyLt b c = true) : keyLt a c = true := by
  simp only [keyLt, Bool.or_eq_true, Bool.and_eq_true, beq_iff_eq] at h1 h2 ⊢
  rcases h1 with h1 | ⟨h1e, h1s⟩
  · rcases h2 with h2 | ⟨h2e, h2s⟩
    · exact Or.inl (charListLt_trans _ _ _ h1 h2)
    · exact Or.inl (h2e ▸ h1)
  · rcases h2 with h2 | ⟨h2e, h2s⟩
    · exact Or.inl (h1e ▸ h2)
    · exact Or.inr ⟨h1e.trans h2e, charListLt_trans _ _ _ h1s h2s⟩

theorem keyLt_asymm {a b : String × String} (h : keyLt a b = true) :
    keyLt b a = false := by
  by_contra hc
  have hba : keyLt b a = true := by
    cases hx : keyLt b a
    · exact absurd hx hc
    · rfl
  have := keyLt_trans h hba
  simp [keyLt_irrefl] at this

/-- From `¬ a < b`: either `b < a` or the keys are equal. -/
theorem keyLt_false_cases {a b : String × String} (h : keyLt a b = false) :
    keyLt b a = true ∨ a = b := by
  cases hx : keyLt b a
  · exact Or.inr (keyLt_connex h hx)
  · exact Or.inl rfl

/-! ## Properties of the builder's stable sort -/

theorem insertSorted_perm (by_ : FieldKey) (c : Complaint) :
    ∀ l : List Complaint, (insertSorted by_ c l).Perm (c :: l)
  | [] => List.Perm.refl _
  | d :: l => by
    simp only [insertSorted]
    split
    · exact (List.Perm.cons d (insertSorted_perm by_ c l)).trans (List.Perm.swap c d l)
    · exact List.Perm.refl _

theorem sort_values_perm (by_ : FieldKey) :
    ∀ l : List Complaint, (sort_values by_ l).Perm l
  | [] => List.Perm.refl _
  | c :: l =>
    (insertSorted_perm by_ c (sort_values by_ l)).trans
      (List.Perm.cons c (sort_values_perm by_ l))

theorem mem_insertSorted {by_ : FieldKey} {c e : Complaint} {l : List Complaint} :
    e ∈ insertSorted by_ c l ↔ e = c ∨ e ∈ l := by
  rw [(insertSorted_perm by_ c l).mem_iff]
  simp

/-- The non-strict comparator maintained along the sorted runs. -/
def sortRel (by_ : FieldKey) (a b : Complaint) : Prop :=
  keyLt (sortKey by_ b) (sortKey by_ a) = false

theorem insertSorted_pairwise {by_ : FieldKey} {c : Complaint} :
    ∀ {l : List Complaint}, l.Pairwise (sortRel by_) →
      (insertSorted by_ c l).Pairwise (sortRel by_)
  | [], _ => List.pairwise_singleton _ _
  | d :: l, h => by
    rcases List.pairwise_cons.mp h with ⟨hd, hl⟩
    simp only [insertSorted]
    split
    · rename_i hlt
      refine List.pairwise_cons.mpr ⟨?_, insertSorted_pairwise hl⟩
      intro e he
      rcases mem_insertSorted.mp he with rfl | he
      · exact keyLt_asymm hlt
      · exact hd e he
    · rename_i hge
      have hge : keyLt (sortKey by_ d) (sortKey by_ c) = false := by
        cases hx : keyLt (sortKey by_ d) (sortKey by_ c)
        · rfl
        · exact absurd hx hge
      refine List.pairwise_cons.mpr ⟨?_, h⟩
      intro e he
      rcases List.mem_cons.mp he with rfl | he
      · exact hge
      · -- `c ≤ d` and `d ≤ e` give `c ≤ e`
        have hde : keyLt (sortKey by_ e) (sortKey by_ d) = false := hd e he
        show keyLt (sortKey by_ e) (sortKey by_ c) = false
        cases hx : keyLt (sortKey by_ e) (sortKey by_ c)
        · rfl
        · exfalso
          rcases keyLt_false_cases hge with hcd | hcd
          · have := keyLt_trans hx hcd
            simp [hde] at this
          · rw [hcd] at hde
            simp [hde] at hx

theorem sort_values_pairwise (by_ : FieldKey) :
    ∀ l : List Complaint, (sort_values by_ l).Pairwise (sortRel by_)
  | [] => List.Pairwise.nil
  | _ :: l => insertSorted_pairwise (sort_values_pairwise by_ l)

theorem filter_insertSorted (by_ : FieldKey) (c : Complaint) (v : String × String) :
    ∀ l : List Complaint,
      (insertSorted by_ c l).filter (fun r => sortKey by_ r == v) =
        if sortKey by_ c == v then c :: l.filter (fun r => sortKey by_ r == v)
        else l.filter (fun r => sortKey by_ r == v)
  | [] => by
    simp [insertSorted, List.filter_cons]
  | d :: l => by
    simp only [insertSorted]
    split
    · rename_i hlt
      by_cases hcv : sortKey by_ c = v
      · have hdv : (sortKey by_ d == v) = false := by
          apply beq_false_of_ne
          intro hdv
          rw [hdv, ← hcv] at hlt
          simp [keyLt_irrefl] at hlt
        simp only [List.filter_cons, hdv, if_neg, Bool.false_eq_true, ite_false,
          filter_insertSorted by_ c v l, hcv, beq_self_eq_true, ite_true]
      · have hcv' : (sortKey by_ c == v) = false := beq_false_of_ne hcv
        simp only [List.filter_cons, filter_insertSorted by_ c v l, hcv',
          Bool.false_eq_true, ite_false]
    · simp [List.filter_cons]

/-- Stability: within each sort-key class, the sorted output lists the
records in their original insertion order. -/
theorem filter_sort_values (by_ : FieldKey) (v : String × String) :
    ∀ l : List Complaint,
      (sort_values by_ l).filter (fun r => sortKey by_ r == v) =
        l.filter (fun r => sortKey by_ r == v)
  | [] => rfl
  | c :: l => by
    simp [sort_values, filter_insertSorted by_ c v (sort_values by_ l),
      filter_sort_values by_ v l, List.filter_cons]

/-! ## Properties of `str.strip` -/

theorem dropWhile_of_all_false {α : Type} {p : α → Bool} :
    ∀ l : List α, (∀ c ∈ l, p c = false) → l.dropWhile p = l
  | [], _ => rfl
  | a :: t, h => by simp [List.dropWhile_cons, h a (by simp)]

theorem pstrip_eq_rdropWhile (l : List Char) :
    pstrip l = List.rdropWhile isWS (l.dropWhile isWS) := rfl

theorem pstrip_of_all_not_ws {l : List Char} (h : ∀ c ∈ l, isWS c = false) :
    pstrip l = l := by
  rw [pstrip_eq_rdropWhile, dropWhile_of_all_false l h, List.rdropWhile,
    dropWhile_of_all_false l.reverse (fun c hc => h c (by simpa using hc)),
    List.reverse_reverse]

/-- Left-stripping is a no-op after a full strip. -/
theorem dropWhile_pstrip (l : List Char) :
    (pstrip l).dropWhile isWS = pstrip l := by
  rw [pstrip_eq_rdropWhile]
  cases hx : l.dropWhile isWS with
  | nil => simp [List.rdropWhile]
  | cons a t =>
    have ha : isWS a = false := by
      have := List.head?_dropWhile_not isWS l
      rw [hx] at this
      simpa using this
    rw [List.rdropWhile, List.reverse_cons, List.dropWhile_append]
    split
    · rename_i hemp
      simp [List.dropWhile_cons, ha]
    · rename_i hemp
      cases hw : (t.reverse.dropWhile isWS) with
      | nil => rw [hw] at hemp; simp at hemp
      | cons b w =>
        simp only [hw, List.reverse_append, List.reverse_cons, List.reverse_nil,
          List.nil_append, List.singleton_append, List.dropWhile_cons, ha,
          Bool.false_eq_true, ite_false]

theorem pstrip_idem (l : List Char) : pstrip (pstrip l) = pstrip l := by
  rw [pstrip_eq_rdropWhile (pstrip l), dropWhile_pstrip, pstrip_eq_rdropWhile,
    List.rdropWhile_idempotent]

theorem mem_pstrip {c : Char} {l : List Char} (h : c ∈ pstrip l) : c ∈ l := by
  simp only [pstrip, List.mem_reverse] at h
  have h1 : c ∈ (l.dropWhile isWS).reverse := List.dropWhile_subset isWS h
  rw [List.mem_reverse] at h1
  exact List.dropWhile_subset isWS h1

/-! ## Captures never contain a line break -/

theorem wsTryAux_no_nl (k : List Char → Option (List Char))
    (hk : ∀ s v, k s = some v → '\n' ∉ v) :
    ∀ (s : List Char) (n : Nat) (v : List Char), wsTryAux k s n = some v → '\n' ∉ v
  | s, 0, v => hk s v
  | s, n + 1, v => by
    simp only [wsTryAux]
    intro h
    rcases (Option.orElse_eq_some' _ _ _).mp h with h | ⟨_, h⟩
    · exact hk _ v h
    · exact wsTryAux_no_nl k hk s n v h

theorem matchRE_no_nl :
    ∀ (ps : List RE) (s v : List Char), matchRE ps s = some v → '\n' ∉ v
  | [], s, v => by simp [matchRE]
  | RE.lit c :: ps, [], v => by simp [matchRE]
  | RE.lit c :: ps, x :: s, v => by
    simp only [matchRE]
    split
    · exact matchRE_no_nl ps s v
    · simp
  | RE.opt c :: ps, [], v => fun h => matchRE_no_nl ps [] v h
  | RE.opt c :: ps, x :: s, v => by
    simp only [matchRE]
    split
    · intro h
      rcases (Option.orElse_eq_some' _ _ _).mp h with h | ⟨_, h⟩
      · exact matchRE_no_nl ps s v h
      · exact matchRE_no_nl ps (x :: s) v h
    · exact matchRE_no_nl ps (x :: s) v
  | RE.nl :: ps, [], v => by simp [matchRE]
  | RE.nl :: ps, x :: s, v => by
    simp only [matchRE]
    split
    · exact matchRE_no_nl ps s v
    · simp
  | RE.dotPlus :: ps, s, v => by
    simp only [matchRE]
    split
    · simp
    · intro h
      cases h
      intro hmem
      have := List.mem_takeWhile_imp hmem
      simp at this
  | RE.wsStar :: ps, s, v => by
    simp only [matchRE]
    exact wsTryAux_no_nl (matchRE ps) (fun s v => matchRE_no_nl ps s v) s _ v

theorem reSearch_no_nl (ps : List RE) :
    ∀ (s v : List Char), reSearch ps s = some v → '\n' ∉ v
  | [], v => matchRE_no_nl ps [] v
  | x :: t, v => by
    simp only [reSearch]
    intro h
    rcases (Option.orElse_eq_some' _ _ _).mp h with h | ⟨_, h⟩
    · exact matchRE_no_nl ps (x :: t) v h
    · exact reSearch_no_nl ps t v h

theorem searchLabel_no_nl {text : List Char} {lbl : List RE} {cap : List Char}
    (h : searchLabel text lbl = some cap) : '\n' ∉ cap := by
  rw [searchLabel] at h
  rcases (Option.orElse_eq_some' _ _ _).mp h with h | ⟨_, h⟩
  · exact reSearch_no_nl _ _ _ h
  · exact reSearch_no_nl _ _ _ h

/-- The trim-at-embedded-line-break branch of `_extract_after_label` never
fires: a stripped capture cannot contain `'\n'`. -/
theorem postValue_eq_pstrip {cap : List Char} (h : '\n' ∉ pstrip cap) :
    postValue cap = pstrip cap := by
  simp only [postValue]
  split
  · rename_i hc
    exfalso
    apply h
    simpa [List.contains, List.elem_eq_mem] using hc
  · rfl

theorem extract_after_label_no_nl (text : List Char) :
    ∀ labels, '\n' ∉ extract_after_label text labels
  | [] => by simp [extract_after_label]
  | lbl :: rest => by
    simp only [extract_after_label]
    cases h : searchLabel text lbl with
    | some cap =>
      have hnn : '\n' ∉ pstrip cap := fun hm => searchLabel_no_nl h (mem_pstrip hm)
      show '\n' ∉ postValue cap
      rw [postValue_eq_pstrip hnn]
      exact hnn
    | none => exact extract_after_label_no_nl text rest

theorem pstrip_extract_after_label (text : List Char) :
    ∀ labels, pstrip (extract_after_label text labels) =
      extract_after_label text labels
  | [] => rfl
  | lbl :: rest => by
    simp only [extract_after_label]
    cases h : searchLabel text lbl with
    | some cap =>
      have hnn : '\n' ∉ pstrip cap := fun hm => searchLabel_no_nl h (mem_pstrip hm)
      show pstrip (postValue cap) = postValue cap
      rw [postValue_eq_pstrip hnn, pstrip_idem]
    | none => exact pstrip_extract_after_label text rest

/-! ## Properties of the amount normalization -/

/-- The character class kept by `_cleanup_amount`'s first pass. -/
theorem isWS_false_of_kept {c : Char} (h : (c.isDigit || c = '.' || c = ',') = true) :
    isWS c = false := by
  cases hw : isWS c
  · rfl
  · exfalso
    simp only [isWS, Bool.or_eq_true, decide_eq_true_eq] at hw
    rcases hw with ((((h1 | h1) | h1) | h1) | h1) | h1 <;> subst h1 <;>
      exact absurd h (by decide)

theorem cleanup_amount_eq_claim (raw : List Char) :
    cleanup_amount raw = claim_cleanup_amount raw := by
  cases raw with
  | nil => rfl
  | cons a t => rfl

theorem mem_cleanup_amount {c : Char} {raw : List Char}
    (h : c ∈ cleanup_amount raw) : (c.isDigit || c = '.' || c = ',') = true := by
  rw [cleanup_amount_eq_claim] at h
  simp only [claim_cleanup_amount, List.mem_filter] at h
  exact h.1.2

theorem cleanup_amount_not_ws {c : Char} {raw : List Char}
    (h : c ∈ cleanup_amount raw) : isWS c = false :=
  isWS_false_of_kept (mem_cleanup_amount h)

theorem pstrip_cleanup_amount (raw : List Char) :
    pstrip (cleanup_amount raw) = cleanup_amount raw :=
  pstrip_of_all_not_ws fun _ hc => cleanup_amount_not_ws hc

theorem cleanup_amount_no_nl (raw : List Char) : '\n' ∉ cleanup_amount raw := by
  intro h
  have := cleanup_amount_not_ws h
  simp [isWS] at this

/-! ## Extractor plumbing -/

theorem fieldValue_emptyComplaint (f : FieldKey) :
    fieldValue f emptyComplaint = "" := by
  cases f <;> rfl

/-- `_extract_after_label` coincides with the spec's first-match-wins
description of label-pattern fallback. -/
theorem extract_after_label_eq_claim (text : List Char) :
    ∀ labels, extract_after_label text labels = claimFieldExtract labels text
  | [] => rfl
  | lbl :: rest => by
    have hfun :
        ((reSearch (pInline lbl) text).orElse fun _ => reSearch (pNextline lbl) text) =
          searchLabel text lbl := rfl
    simp only [extract_after_label, claimFieldExtract, List.findSome?_cons, hfun]
    cases h : searchLabel text lbl with
    | some cap => simp
    | none =>
      simp only
      rw [extract_after_label_eq_claim text rest, claimFieldExtract]

/-! ## Report-builder plumbing -/

theorem dupPass_eq_claim (k : FieldKey) (reason : String) (rs : List Complaint) :
    dupPass k reason rs = claim_dup_pass k reason rs := by
  simp only [dupPass, claim_dup_pass, nonEmptyAt]
  rw [List.filter_filter]
  congr 1
  apply List.filter_congr
  intro r _
  by_cases hne : fieldValue k r = ""
  · simp [hne]
  · have hcnt :
        (rs.filter fun a => !decide (fieldValue k a = "")).countP
            (fun r2 => fieldValue k r2 = fieldValue k r) =
          rs.countP fun r2 => fieldValue k r2 = fieldValue k r := by
      rw [List.countP_filter]
      apply List.countP_congr
      intro a _
      constructor
      · intro ha
        simpa using (Bool.and_elim_left ha)
      · intro ha
        have ha' : fieldValue k a = fieldValue k r := by simpa using ha
        simp [ha', hne]
    simp [hne, hcnt, Bool.and_comm]

theorem possible_duplicates_rows_eq_claim (rs : List Complaint) :
    possible_duplicates_rows rs = claim_duplicates_rows rs := by
  rw [possible_duplicates_rows, claim_duplicates_rows, dupPass_eq_claim,
    dupPass_eq_claim]

/-! ## Progress-callback plumbing -/

theorem pageLoop_ok {ε : Type} {cb : Nat → Nat → Except ε Unit} {total : Nat}
    (h : ∀ i n, cb i n = Except.ok ()) :
    ∀ (idx : Nat) (ps : List String), pageLoop cb total idx ps = Except.ok ps
  | _, [] => rfl
  | idx, p :: rest => by
    simp only [pageLoop, h idx total, pageLoop_ok h (idx + 1) rest]

/-! ## The claims -/

/-- C1: for every field and Combined Text, extraction tries the label
patterns in list order, inline shape before next-line shape, first match
wins and later patterns are never tried (`extract_after_label` refines
the spec-side `claimFieldExtract`); concretely, `"Complaint ID: ABC123"`
yields `Complaint_ID = "ABC123"`, and so does the next-line form
`"Complaint ID\nABC123"`. -/
theorem claim_C1_label_pattern_order :
    (∀ (text : List Char) (labels : List (List RE)),
        extract_after_label text labels = claimFieldExtract labels text) ∧
    (process_pdf_strict ["Complaint ID: ABC123"]).Complaint_ID = "ABC123" ∧
    (process_pdf_strict ["Complaint ID\nABC123"]).Complaint_ID = "ABC123" :=
  ⟨fun text labels => extract_after_label_eq_claim text labels, by decide, by decide⟩

/-- C2: the Possible_Duplicates sheet is exactly the Pass A rows (records
with a non-empty `Complaint_ID` occurring at least twice across the
records, reason `"Duplicate Complaint_ID"`) followed by the Pass B rows
(likewise for `Mobile_Number`), with no cross-pass deduplication; for
Complaint_IDs `[A, A, B]` and Mobile_Numbers `[1, 2, 2]` the sheet has
exactly four data rows, the row matched on both counts appearing twice. -/
theorem claim_C2_duplicates_sheet :
    (∀ rs : List Complaint, possible_duplicates_rows rs = claim_duplicates_rows rs) ∧
    (possible_duplicates_rows dupExample).length = 4 ∧
    duplicates_sheet dupExample =
      [headerRow ++ ["Duplicate_Reason"],
       rowOf (mkIdMob "A" "1") ++ ["Duplicate Complaint_ID"],
       rowOf (mkIdMob "A" "2") ++ ["Duplicate Complaint_ID"],
       rowOf (mkIdMob "A" "2") ++ ["Duplicate Mobile_Number"],
       rowOf (mkIdMob "B" "2") ++ ["Duplicate Mobile_Number"]] :=
  ⟨possible_duplicates_rows_eq_claim, by decide, by decide⟩

/-- C3: each grouped sheet contains every input record exactly once (no
filtering on the grouping value), sorted ascending by the pair
(grouping value, `Complaint_ID`), records tying on both keys staying in
their original insertion order (stability, stated as per-key-class filter
preservation); crime types `[Phishing, Phishing, UPI_Fraud]` with
Complaint_IDs `[2, 1, 3]` come out ordered `Phishing/1, Phishing/2,
UPI_Fraud/3`. -/
theorem claim_C3_grouped_sheets (by_ : FieldKey) (rs : List Complaint) :
    grouped_sheet by_ rs = headerRow :: (sort_values by_ rs).map rowOf ∧
    (sort_values by_ rs).Perm rs ∧
    (sort_values by_ rs).Pairwise (fun a b => keyLe (sortKey by_ a) (sortKey by_ b)) ∧
    (∀ v : String × String,
        (sort_values by_ rs).filter (fun r => sortKey by_ r == v) =
          rs.filter fun r => sortKey by_ r == v) ∧
    (sort_values FieldKey.Type_of_Cybercrime groupExample).map
        Complaint.Complaint_ID = ["1", "2", "3"] := by
  refine ⟨rfl, sort_values_perm by_ rs, ?_, fun v => filter_sort_values by_ v rs, by decide⟩
  apply (sort_values_pairwise by_ rs).imp
  intro a b hab
  rcases keyLt_false_cases hab with h | h
  · exact Or.inl h
  · exact Or.inr h.symm

/-- C4 (counterexample): with `District` present on one record and absent
on another, `_ensure_columns` does not synthesize the absent key as the
empty string — the column already exists, so the lacking record keeps a
`NaN` cell (`none`), not `''`. -/
theorem claim_C4_counterexample :
    rawMissingDE FieldKey.District = none ∧
    ensure_columns_cell mixedRaws rawMissingDE FieldKey.District ≠ some "" :=
  ⟨rfl, by decide⟩

/-- C4 (amended): a canonical key absent from every record is synthesized
as an empty-string column; a key absent from only some records stays a
`NaN` cell for them, which the Master sheet renders as empty; every
Master row has exactly the eleven canonical columns in canonical order,
so a record missing `District` and `Email` still appears in Master with
those two columns present and rendered empty. -/
theorem claim_C4_schema_coercion (rs : List RawRecord) (r : RawRecord)
    (hr : r ∈ rs) :
    (∀ f, colPresent rs f = false → ensure_columns_cell rs r f = some "") ∧
    (∀ f, r f = none → (ensure_columns_cell rs r f).getD "" = "") ∧
    master_row rs r ∈ master_rendered rs ∧
    (master_row rs r).length = 11 ∧
    (master_row rs r)[5]? = some ((ensure_columns_cell rs r FieldKey.District).getD "") ∧
    (master_row rs r)[4]? = some ((ensure_columns_cell rs r FieldKey.Email).getD "") := by
  refine ⟨?_, ?_, List.mem_map.mpr ⟨r, hr, rfl⟩, by simp [master_row, REQUIRED_COLUMNS],
    rfl, rfl⟩
  · intro f h
    simp [ensure_columns_cell, h]
  · intro f h
    rw [ensure_columns_cell]
    split
    · simp [h]
    · rfl

/-- C4 (witness): instance of the amended claim on a concrete sequence in
which one record lacks `Email`. -/
theorem claim_C4_witness :
    (ensure_columns_cell mixedRaws rawMissingDE FieldKey.Email).getD "" = "" :=
  (claim_C4_schema_coercion mixedRaws rawMissingDE
    (List.Mem.tail _ (List.Mem.head _))).2.1 FieldKey.Email rfl

/-- C5: the extractor invokes the progress callback exactly once per page,
the `i`-th invocation with arguments `(i, N)`, all invocations strictly
before the Combined Text is assembled and any field searched (every
progress event precedes every non-progress event of the trace); the
returned dictionary has exactly the eleven canonical keys, and a
zero-page document produces no invocation and the all-empty record. -/
theorem claim_C5_progress_and_schema (pages : List String) :
    (progress_calls pages).length = pages.length ∧
    (∀ i : Nat, (progress_calls pages)[i]? =
        if i < pages.length then some (i + 1, pages.length) else none) ∧
    extraction_trace pages =
      (extraction_trace pages).filter Ev.isProgress ++
        (extraction_trace pages).filter (fun e => !(Ev.isProgress e)) ∧
    (complaint_pairs (process_pdf_strict pages)).map Prod.fst = REQUIRED_COLUMNS ∧
    (progress_calls ([] : List String) = [] ∧
      process_pdf_strict [] = emptyComplaint) := by
  refine ⟨by simp [progress_calls], ?_, ?_, ?_, rfl, rfl⟩
  · intro i
    simp only [progress_calls, List.getElem?_map]
    by_cases h : i < pages.length
    · rw [List.getElem?_range h]
      simp [h]
    · rw [List.getElem?_eq_none (by simpa using Nat.le_of_not_lt h)]
      simp [h]
  · by_cases hz : pages.length = 0
    · simp [extraction_trace, hz]
    · simp only [extraction_trace, hz, ite_false]
      have hA : ∀ e ∈ (progress_calls pages).map fun p => Ev.progress p.1 p.2,
          Ev.isProgress e = true := by
        intro e he
        simp only [List.mem_map] at he
        obtain ⟨p, _, rfl⟩ := he
        rfl
      have hB : ∀ e ∈ Ev.combineText :: REQUIRED_COLUMNS.map Ev.fieldSearch,
          Ev.isProgress e = false := by
        intro e he
        rcases List.mem_cons.mp he with rfl | he
        · rfl
        · simp only [List.mem_map] at he
          obtain ⟨f, _, rfl⟩ := he
          rfl
      rw [List.filter_append, List.filter_append,
        List.filter_eq_self.mpr hA,
        List.filter_eq_nil_iff.mpr (fun e he => by simp [hB e he]),
        List.filter_eq_nil_iff.mpr (fun e he => by simp [hA e he]),
        List.filter_eq_self.mpr (fun e he => by simp [hB e he])]
      simp
  · simp only [complaint_pairs, List.map_map]
    have : (Prod.fst ∘ fun f => (f, fieldValue f (process_pdf_strict pages))) =
        fun f : FieldKey => f := rfl
    rw [this, List.map_id']

/-- C6 (counterexample): a raising callback aborts extraction — the
exception propagates instead of being isolated, so the result is an
error, not the record a non-raising callback would produce. -/
theorem claim_C6_counterexample :
    process_pdf_strict_cb raisingCb ["Complaint ID: X"] = Except.error () ∧
    process_pdf_strict_cb raisingCb ["Complaint ID: X"] ≠
      Except.ok (process_pdf_strict ["Complaint ID: X"]) := by
  refine ⟨rfl, ?_⟩
  intro h
  have h2 : (Except.error () : Except Unit Complaint) =
      Except.ok (process_pdf_strict ["Complaint ID: X"]) :=
    (rfl : process_pdf_strict_cb raisingCb ["Complaint ID: X"] =
      Except.error ()).symm.trans h
  exact Except.noConfusion h2

/-- C6 (amended): callback exceptions are not isolated — the page loop has
no `try`/`except`, so a raising invocation aborts extraction; with a
callback that never raises, extraction completes and returns exactly the
record of the callback-free run. -/
theorem claim_C6_callback_exceptions {ε : Type} (cb : Nat → Nat → Except ε Unit)
    (pages : List String) (h : ∀ i n, cb i n = Except.ok ()) :
    process_pdf_strict_cb cb pages = Except.ok (process_pdf_strict pages) := by
  simp only [process_pdf_strict_cb, process_pdf_strict]
  by_cases hz : pages.length = 0
  · simp [hz]
  · simp [hz, pageLoop_ok h 1 pages]

/-- C6 (witness): a concrete non-raising callback on a one-page document. -/
theorem claim_C6_witness :
    process_pdf_strict_cb (fun _ _ => (Except.ok () : Except Unit Unit)) ["x"] =
      Except.ok (process_pdf_strict ["x"]) :=
  claim_C6_callback_exceptions (fun _ _ => Except.ok ()) ["x"] (fun _ _ => rfl)

/-- C7: amount normalization keeps only digits, `.` and `,`, then removes
every `,` (refining the spec-side description), yields the empty string
on empty input, and maps the raw capture `"₹1,23,456.50 approx"` to
`"123456.50"` — also through the full pipeline. -/
theorem claim_C7_amount_cleanup :
    (∀ raw : List Char, cleanup_amount raw = claim_cleanup_amount raw) ∧
    cleanup_amount "₹1,23,456.50 approx".toList = "123456.50".toList ∧
    cleanup_amount [] = [] ∧
    (process_pdf_strict ["Amount Lost: ₹1,23,456.50 approx"]).Amount_Lost =
      "123456.50" :=
  ⟨cleanup_amount_eq_claim, by decide, rfl, by decide⟩

/-- C8: building the report artifact is idempotent as a state transformer —
a second build from the unchanged accumulation writes the identical
workbook — and the build never mutates the accumulation. -/
theorem claim_C8_idempotent_build (s : SysState) :
    build_master_workbook (build_master_workbook s) = build_master_workbook s ∧
    (build_master_workbook s).accumulation = s.accumulation :=
  ⟨rfl, rfl⟩

/-- C9: captures stop at the end of a line, so the stripped capture never
contains a line break — the trim-at-embedded-line-break branch of
`_extract_after_label` is unreachable — and no field value of the
returned record contains `'\n'`. -/
theorem claim_C9_no_linebreaks :
    (∀ (text : List Char) (lbl : List RE),
        searchLabel text lbl = none ∨
          ∃ cap, searchLabel text lbl = some cap ∧ '\n' ∉ pstrip cap ∧
            postValue cap = pstrip cap) ∧
    (∀ (pages : List String) (f : FieldKey),
        '\n' ∉ (fieldValue f (process_pdf_strict pages)).data) := by
  constructor
  · intro text lbl
    cases h : searchLabel text lbl with
    | none => exact Or.inl rfl
    | some cap =>
      have hnn : '\n' ∉ pstrip cap := fun hm => searchLabel_no_nl h (mem_pstrip hm)
      exact Or.inr ⟨cap, rfl, hnn, postValue_eq_pstrip hnn⟩
  · intro pages f
    by_cases hz : pages.length = 0
    · simp only [process_pdf_strict, hz, ite_true]
      rw [fieldValue_emptyComplaint]
      simp
    · simp only [process_pdf_strict, hz, ite_false]
      cases f <;>
        first
          | exact cleanup_amount_no_nl _
          | exact extract_after_label_no_nl _ _

/-- C10: every field value the extractor returns is trimmed — equal to
itself with leading and trailing whitespace stripped (matched values are
stripped on capture, unmatched fields are empty, amount normalization
leaves no whitespace). -/
theorem claim_C10_trimmed_fields (pages : List String) (f : FieldKey) :
    pstrip (fieldValue f (process_pdf_strict pages)).data =
      (fieldValue f (process_pdf_strict pages)).data := by
  by_cases hz : pages.length = 0
  · simp only [process_pdf_strict, hz, ite_true]
    rw [fieldValue_emptyComplaint]
    rfl
  · simp only [process_pdf_strict, hz, ite_false]
    cases f <;>
      first
        | exact pstrip_cleanup_amount _
        | exact pstrip_extract_after_label _ _
